import Mathlib

/-!
Verification development for the CollieDB embedded document store
(`src/index.ts`).

The TypeScript source is shallowly embedded: the mutable `DataBase` class
becomes a `Store` record threaded explicitly through each operation, thrown
exceptions become `Except DBError`, and the synchronous event emissions of
the `EventEmitter` become an explicit trace (`List Ev`) returned by each
operation, each trace element carrying a snapshot of the table documents at
the moment of emission (this captures "emitted before/after the mutation"
orderings observably).

Numbers are modelled as `Int` (epoch milliseconds and durations are the only
numbers the verified claims touch).  The lodash path engine (`get`, `has`,
`set`, `unset`), an external dependency of the repository, is modelled at
its boundary following the specification of the PathAccessor component:
paths are explicit segment lists (the spec requires the dotted-string and
segment-list forms of a path to be treated as equivalent), a segment is an
object key or an array index, and segment interpretation is determined by
the segment's own shape.  JavaScript array holes are modelled as `null`
(their JSON serialization).
-/

set_option autoImplicit false

/-- JSON-representable document values. -/
inductive JSON where
  | null : JSON
  | bool : Bool → JSON
  | num : Int → JSON
  | str : String → JSON
  | arr : List JSON → JSON
  | obj : List (String × JSON) → JSON

/-- Path segments: an object key or an array index. -/
inductive Seg where
  | key : String → Seg
  | idx : Nat → Seg
deriving DecidableEq

/-- A path into a document, as an explicit segment list. -/
abbrev DBPath := List Seg

/-- First binding of a key in an association list (JavaScript own-property
lookup; parsed JSON objects have unique keys). -/
def lookupField {α : Type} : List (String × α) → String → Option α
  | [], _ => none
  | (k, v) :: rest, s => if k = s then some v else lookupField rest s

/-- Assign a key in an association list: replace the first binding in place
if the key is present (JavaScript keeps the original insertion position),
else append (new keys go last). -/
def setField {α : Type} : List (String × α) → String → α → List (String × α)
  | [], s, v => [(s, v)]
  | (k, w) :: rest, s, v =>
    if k = s then (k, v) :: rest else (k, w) :: setField rest s v

/-- Remove the first binding of a key (JavaScript `delete`). -/
def removeField {α : Type} : List (String × α) → String → List (String × α)
  | [], _ => []
  | (k, w) :: rest, s => if k = s then rest else (k, w) :: removeField rest s

/-- Write index `n` of a list, padding with `null` (JavaScript array holes
serialize to `null`) when the index is past the end. -/
def setIdx : List JSON → Nat → JSON → List JSON
  | _ :: rest, 0, v => v :: rest
  | [], 0, v => [v]
  | x :: rest, Nat.succ n, v => x :: setIdx rest n v
  | [], Nat.succ n, v => JSON.null :: setIdx [] n v

/-- Lodash `unset` on an array index deletes the slot but keeps the length,
leaving a hole; holes are modelled as `null`.  Out-of-range indices are a
no-op. -/
def unsetIdx : List JSON → Nat → List JSON
  | [], _ => []
  | _ :: rest, 0 => JSON.null :: rest
  | x :: rest, Nat.succ n => x :: unsetIdx rest n

/-- Lodash `get` without a default: resolve each segment in order, returning
`none` (JavaScript `undefined`) as soon as a segment is absent or the
current value is not a container of the segment's shape. -/
def rawGet : JSON → DBPath → Option JSON
  | v, [] => some v
  | JSON.obj fs, Seg.key s :: rest =>
    match lookupField fs s with
    | some v => rawGet v rest
    | none => none
  | JSON.arr xs, Seg.idx n :: rest =>
    match xs[n]? with
    | some v => rawGet v rest
    | none => none
  | _, _ => none

/-- Lodash `has`: the path exists in the document (a stored `null` counts as
present, unlike `rawGet`'s collapse under `??` at the call sites). -/
def hasPath : JSON → DBPath → Bool
  | _, [] => true
  | JSON.obj fs, Seg.key s :: rest =>
    match lookupField fs s with
    | some v => hasPath v rest
    | none => false
  | JSON.arr xs, Seg.idx n :: rest =>
    match xs[n]? with
    | some v => hasPath v rest
    | none => false
  | _, _ => false

/-- Container created for a missing intermediate step: an ordered list when
the next segment is an index, a mapping otherwise. -/
def emptyFor : DBPath → JSON
  | Seg.idx _ :: _ => JSON.arr []
  | _ => JSON.obj []

/-- Whether a value is a container (lodash descends into existing containers
and replaces primitives with a fresh container while setting). -/
def isContainer : JSON → Bool
  | JSON.obj _ => true
  | JSON.arr _ => true
  | _ => false

/-- Lodash `set`: walk the path, descending into existing containers and
creating a container appropriate to the next segment otherwise, then assign
the final segment. -/
def setPath : JSON → DBPath → JSON → JSON
  | _, [], v => v
  | doc, Seg.key s :: rest, v =>
    let fs := match doc with
      | JSON.obj fs => fs
      | _ => []
    let child := match lookupField fs s with
      | some c => if isContainer c then c else emptyFor rest
      | none => emptyFor rest
    JSON.obj (setField fs s (setPath child rest v))
  | doc, Seg.idx n :: rest, v =>
    let xs := match doc with
      | JSON.arr xs => xs
      | _ => []
    let child := match xs[n]? with
      | some c => if isContainer c then c else emptyFor rest
      | none => emptyFor rest
    JSON.arr (setIdx xs n (setPath child rest v))

/-- Lodash `unset`: remove the final segment's entry if present; a no-op if
any segment along the way is absent or mismatched. -/
def unsetPath : JSON → DBPath → JSON
  | doc, [] => doc
  | JSON.obj fs, [Seg.key s] => JSON.obj (removeField fs s)
  | JSON.arr xs, [Seg.idx n] => JSON.arr (unsetIdx xs n)
  | JSON.obj fs, Seg.key s :: rest =>
    match lookupField fs s with
    | some c => JSON.obj (setField fs s (unsetPath c rest))
    | none => JSON.obj fs
  | JSON.arr xs, Seg.idx n :: rest =>
    match xs[n]? with
    | some c => JSON.arr (setIdx xs n (unsetPath c rest))
    | none => JSON.arr xs
  | doc, _ => doc

/-- JavaScript `value ?? null` on a possibly-undefined value (`none` models
`undefined`): both `undefined` and `null` collapse to `null`. -/
def jsStore : Option JSON → JSON
  | none => JSON.null
  | some JSON.null => JSON.null
  | some v => v

/-- JavaScript `x ?? d`: `null` and `undefined` fall through to the
default. -/
def jsCoalesce : Option JSON → Option JSON → Option JSON
  | none, d => d
  | some JSON.null, d => d
  | some v, _ => some v

theorem lookupField_setField_self {α : Type} (fs : List (String × α)) (s : String) (v : α) :
    lookupField (setField fs s v) s = some v := by
  induction fs with
  | nil => simp [lookupField, setField]
  | cons p rest ih =>
    obtain ⟨k, w⟩ := p
    by_cases h : k = s <;> simp [lookupField, setField, h, ih]

theorem lookupField_setField_ne {α : Type} (fs : List (String × α)) (s t : String) (v : α)
    (h : s ≠ t) : lookupField (setField fs s v) t = lookupField fs t := by
  induction fs with
  | nil => simp [lookupField, setField, h]
  | cons p rest ih =>
    obtain ⟨k, w⟩ := p
    by_cases hk : k = s
    · subst hk
      simp [lookupField, setField, h]
    · simp [lookupField, setField, hk, ih]

theorem lookupField_removeField_ne {α : Type} (fs : List (String × α)) (s t : String)
    (h : s ≠ t) : lookupField (removeField fs s) t = lookupField fs t := by
  induction fs with
  | nil => simp [lookupField, removeField]
  | cons p rest ih =>
    obtain ⟨k, w⟩ := p
    by_cases hk : k = s
    · subst hk
      have hkt : ¬ k = t := h
      simp [lookupField, removeField, hkt]
    · simp [lookupField, removeField, hk, ih]

theorem removeField_of_lookupField_none {α : Type} (fs : List (String × α)) (s : String)
    (h : lookupField fs s = none) : removeField fs s = fs := by
  induction fs with
  | nil => simp [removeField]
  | cons p rest ih =>
    obtain ⟨k, w⟩ := p
    by_cases hk : k = s
    · simp [lookupField, hk] at h
    · simp [lookupField, hk] at h
      simp [removeField, hk, ih h]

theorem setField_of_lookupField_eq {α : Type} (fs : List (String × α)) (s : String) (v : α)
    (h : lookupField fs s = some v) : setField fs s v = fs := by
  induction fs with
  | nil => simp [lookupField] at h
  | cons p rest ih =>
    obtain ⟨k, w⟩ := p
    by_cases hk : k = s
    · simp [lookupField, hk] at h
      simp [setField, hk, h]
    · simp [lookupField, hk] at h
      simp [setField, hk, ih h]

theorem getElem?_setIdx_self (xs : List JSON) (n : Nat) (v : JSON) :
    (setIdx xs n v)[n]? = some v := by
  induction xs generalizing n with
  | nil =>
    induction n with
    | zero => simp [setIdx]
    | succ m ihm => simpa [setIdx] using ihm
  | cons x rest ih =>
    cases n with
    | zero => simp [setIdx]
    | succ m => simpa [setIdx] using ih m

theorem setIdx_of_getElem?_eq (xs : List JSON) (n : Nat) (v : JSON)
    (h : xs[n]? = some v) : setIdx xs n v = xs := by
  induction xs generalizing n with
  | nil => simp at h
  | cons x rest ih =>
    cases n with
    | zero =>
      rw [List.getElem?_cons_zero] at h
      cases h
      simp [setIdx]
    | succ m =>
      rw [List.getElem?_cons_succ] at h
      simp [setIdx, ih m h]

theorem unsetIdx_of_getElem?_none (xs : List JSON) (n : Nat)
    (h : xs[n]? = none) : unsetIdx xs n = xs := by
  induction xs generalizing n with
  | nil => simp [unsetIdx]
  | cons x rest ih =>
    cases n with
    | zero => rw [List.getElem?_cons_zero] at h; cases h
    | succ m =>
      rw [List.getElem?_cons_succ] at h
      simp [unsetIdx, ih m h]

/-- A path exists (`hasPath`) exactly when the raw lodash lookup yields a
value (possibly an explicit `null`). -/
theorem hasPath_eq_isSome_rawGet (p : DBPath) : ∀ d : JSON, hasPath d p = (rawGet d p).isSome := by
  induction p with
  | nil => intro d; simp [hasPath, rawGet]
  | cons sg rest ih =>
    intro d
    cases sg with
    | key s =>
      cases d with
      | obj fs =>
        cases h : lookupField fs s with
        | some v => simp [hasPath, rawGet, h, ih]
        | none => simp [hasPath, rawGet, h]
      | null => simp [hasPath, rawGet]
      | bool b => simp [hasPath, rawGet]
      | num n => simp [hasPath, rawGet]
      | str t => simp [hasPath, rawGet]
      | arr xs => simp [hasPath, rawGet]
    | idx n =>
      cases d with
      | arr xs =>
        cases h : xs[n]? with
        | some v => simp [hasPath, rawGet, h, ih]
        | none => simp [hasPath, rawGet, h]
      | null => simp [hasPath, rawGet]
      | bool b => simp [hasPath, rawGet]
      | num m => simp [hasPath, rawGet]
      | str t => simp [hasPath, rawGet]
      | obj fs => simp [hasPath, rawGet]

/-- Reading back a freshly written path yields the written value. -/
theorem rawGet_setPath_self (p : DBPath) : ∀ (d v : JSON), rawGet (setPath d p v) p = some v := by
  induction p with
  | nil => intro d v; simp [setPath, rawGet]
  | cons sg rest ih =>
    intro d v
    cases sg with
    | key s =>
      simp only [setPath, rawGet, lookupField_setField_self]
      exact ih _ v
    | idx n =>
      simp only [setPath, rawGet, getElem?_setIdx_self]
      exact ih _ v

/-- Unsetting an absent path leaves the document unchanged. -/
theorem unsetPath_of_not_hasPath (p : DBPath) :
    ∀ d : JSON, hasPath d p = false → unsetPath d p = d := by
  induction p with
  | nil => intro d h; simp [hasPath] at h
  | cons sg rest ih =>
    intro d h
    cases rest with
    | nil =>
      cases sg with
      | key s =>
        cases d with
        | obj fs =>
          simp only [hasPath] at h
          cases hl : lookupField fs s with
          | some v => rw [hl] at h; simp [hasPath] at h
          | none => simp [unsetPath, removeField_of_lookupField_none fs s hl]
        | null => rfl
        | bool b => rfl
        | num n => rfl
        | str t => rfl
        | arr xs => rfl
      | idx n =>
        cases d with
        | arr xs =>
          simp only [hasPath] at h
          cases hl : xs[n]? with
          | some v => rw [hl] at h; simp [hasPath] at h
          | none => simp [unsetPath, unsetIdx_of_getElem?_none xs n hl]
        | null => rfl
        | bool b => rfl
        | num n' => rfl
        | str t => rfl
        | obj fs => rfl
    | cons sg2 rest2 =>
      cases sg with
      | key s =>
        cases d with
        | obj fs =>
          simp only [hasPath] at h
          cases hl : lookupField fs s with
          | some v =>
            rw [hl] at h
            simp only [unsetPath, hl]
            rw [ih v h, setField_of_lookupField_eq fs s v hl]
          | none => simp [unsetPath, hl]
        | null => rfl
        | bool b => rfl
        | num n => rfl
        | str t => rfl
        | arr xs => rfl
      | idx n =>
        cases d with
        | arr xs =>
          simp only [hasPath] at h
          cases hl : xs[n]? with
          | some v =>
            rw [hl] at h
            simp only [unsetPath, hl]
            rw [ih v h, setIdx_of_getElem?_eq xs n v hl]
          | none => simp [unsetPath, hl]
        | null => rfl
        | bool b => rfl
        | num n' => rfl
        | str t => rfl
        | obj fs => rfl

/-- Table descriptor from the options: a table name and its file name. -/
structure TableDesc where
  name : String
  mod : String
deriving DecidableEq

/-- Effective database options (`DataBaseOptions`). -/
structure DBOptions where
  timeoutsTable : String
  autoSave : Bool
  tables : List TableDesc
  mod : String
deriving DecidableEq

/-- Partial options as supplied to the constructor
(`Partial<DataBaseOptions>`): every field may be absent. -/
structure PartialOptions where
  timeoutsTable : Option String
  autoSave : Option Bool
  tables : Option (List TableDesc)
  mod : Option String

/-- Default options object (`DefaultDataBaseOptions`). -/
def DefaultDataBaseOptions : DBOptions :=
  { timeoutsTable := "timeouts"
    autoSave := true
    tables := [⟨"main", "main.json"⟩]
    mod := "./database/" }

/-- Lodash `merge` on two table arrays (destination, source): indices below
the source length are overwritten by the source entry (both fields of a
table descriptor are always defined, so the per-index object merge is the
source entry), and indices past the source length keep the destination
entry. -/
def mergeTables (dest src : List TableDesc) : List TableDesc :=
  src ++ dest.drop src.length

/-- The constructor's `merge(options, DefaultDataBaseOptions)`: the defaults
are the merge source, so every default scalar overwrites the caller's value
and the default table descriptor overwrites index 0 of the caller's table
list (an absent caller field is simply filled from the defaults). -/
def constructorMerge (u : PartialOptions) : DBOptions :=
  { timeoutsTable := DefaultDataBaseOptions.timeoutsTable
    autoSave := DefaultDataBaseOptions.autoSave
    tables := mergeTables (u.tables.getD []) DefaultDataBaseOptions.tables
    mod := DefaultDataBaseOptions.mod }

/-- The merge at the top of `init()`: `merge(DefaultDataBaseOptions,
this.options)`.  Here the (total) stored options are the source, so they win
on every scalar and on every table index they cover. -/
def initMergeOptions (o : DBOptions) : DBOptions :=
  { o with tables := mergeTables DefaultDataBaseOptions.tables o.tables }

/-- Effects observable from the store: the five emitted events plus a
triggered persistence (`save`) of a table. -/
inductive Eff where
  | ready : Eff
  | update : DBPath → Option JSON → String → Eff
  | delete : DBPath → String → Eff
  | expires : Option JSON → Eff
  | createTimeout : JSON → Eff
  | save : String → Eff

/-- Snapshot of all table documents at an emission point. -/
abbrev Snap := List (String × JSON)

/-- A trace element: an effect together with the table documents at the
moment it happened. -/
structure Ev where
  eff : Eff
  snap : Snap

/-- The mutable state of a `DataBase` instance.  `timers` holds the pending
one-shot expirations registered through `setTimeout` (absolute fire time and
timeout id); a scheduled callback runs `expire` against the timeouts table
named by the options at fire time. -/
structure Store where
  options : DBOptions
  datas : Snap
  mods : List (String × String)
  timers : List (Int × String)
  ready : Bool

/-- Errors thrown by the store. -/
inductive DBError where
  | notReady : DBError
  | unknownTable : String → DBError
deriving DecidableEq

/-- The `checkReady` guard: throws before `init()` has marked the store
ready. -/
def checkReady (s : Store) : Except DBError Unit :=
  if s.ready then Except.ok () else Except.error DBError.notReady

/-- The `checkTable` guard: `checkReady`, then an unknown-table error when
`this.mods[table]` is falsy (absent, or the empty string). -/
def checkTable (s : Store) (table : String) : Except DBError Unit :=
  match checkReady s with
  | Except.error e => Except.error e
  | Except.ok _ =>
    match lookupField s.mods table with
    | none => Except.error (DBError.unknownTable table)
    | some p =>
      if p = "" then Except.error (DBError.unknownTable table) else Except.ok ()

/-- Document of a table (`this.datas[table]`). -/
def dataOf (s : Store) (table : String) : JSON :=
  (lookupField s.datas table).getD (JSON.obj [])

/-- Save effects appended by a mutating call when autosave is on; the
snapshot records the documents at the moment the save is triggered (the
content that gets serialized). -/
def saveEffs (s : Store) (table : String) : List Ev :=
  if s.options.autoSave then [⟨Eff.save table, s.datas⟩] else []

/-- `Object.keys` of a document (array indices stringified; primitives have
no own enumerable keys). -/
def topKeys : JSON → List String
  | JSON.obj fs => fs.map Prod.fst
  | JSON.arr xs => (List.range xs.length).map toString
  | _ => []

/-- The method `set(table, key, value, emit)`: writes `value ?? null` at the
path, optionally emits `update(key, value, table)` carrying the caller's raw
value, then triggers a save when autosave is on; returns the caller's
value. -/
def DataBase.set (s : Store) (table : String) (key : DBPath) (value : Option JSON)
    (emit : Bool) : Except DBError (Option JSON × Store × List Ev) :=
  match checkTable s table with
  | Except.error e => Except.error e
  | Except.ok _ =>
    let d := setPath (dataOf s table) key (jsStore value)
    let s1 : Store := { s with datas := setField s.datas table d }
    Except.ok (value, s1,
      (if emit then [⟨Eff.update key value table, s1.datas⟩] else [])
        ++ saveEffs s1 table)

/-- The method `get(table, key, dvalue)`: the lodash lookup with `?? dvalue`
applied, so both an absent path and a stored `null` fall through to the
default. -/
def DataBase.get (s : Store) (table : String) (key : DBPath) (dvalue : Option JSON) :
    Except DBError (Option JSON) :=
  match checkTable s table with
  | Except.error e => Except.error e
  | Except.ok _ => Except.ok (jsCoalesce (rawGet (dataOf s table) key) dvalue)

/-- The method `has(table, key)`: lodash `has` on the table document. -/
def DataBase.has (s : Store) (table : String) (key : DBPath) : Except DBError Bool :=
  match checkTable s table with
  | Except.error e => Except.error e
  | Except.ok _ => Except.ok (hasPath (dataOf s table) key)

/-- The method `keys(table)`: `Object.keys` of the table document. -/
def DataBase.keys (s : Store) (table : String) : Except DBError (List String) :=
  match checkTable s table with
  | Except.error e => Except.error e
  | Except.ok _ => Except.ok (topKeys (dataOf s table))

/-- The method `data(table)`: the table's document. -/
def DataBase.data (s : Store) (table : String) : Except DBError JSON :=
  match checkTable s table with
  | Except.error e => Except.error e
  | Except.ok _ => Except.ok (dataOf s table)

/-- Eventual outcome of the promise returned by the async method `save`:
serialize the table's current document and overwrite its backing file. -/
def DataBase.save (s : Store) (table : String) : Except DBError (Bool × List Ev) :=
  match checkTable s table with
  | Except.error e => Except.error e
  | Except.ok _ => Except.ok (true, [⟨Eff.save table, s.datas⟩])

/-- Synchronous view of a call to the async method `save`: invoking an
`async` JavaScript function never throws synchronously; it returns a promise
(the outer layer, always `ok`) whose eventual outcome is the inner value (a
rejection carries the error thrown inside the body). -/
def DataBase.saveInvoke (s : Store) (table : String) :
    Except DBError (Except DBError (Bool × List Ev)) :=
  Except.ok (DataBase.save s table)

/-- The method `delete(table, key)`: emits `delete(key, table)` first (its
snapshot still contains the entry), then removes the path with lodash
`unset`, then triggers a save when autosave is on; always returns `true`. -/
def DataBase.delete (s : Store) (table : String) (key : DBPath) :
    Except DBError (Bool × Store × List Ev) :=
  match checkTable s table with
  | Except.error e => Except.error e
  | Except.ok _ =>
    let preEvent : Ev := ⟨Eff.delete key table, s.datas⟩
    let d := unsetPath (dataOf s table) key
    let s1 : Store := { s with datas := setField s.datas table d }
    Except.ok (true, s1, preEvent :: saveEffs s1 table)

/-- The method `edit(table, key, predicate, force, emit)`: when the path is
present or `force` is set, write `predicate(get(table, key), key)` through
`set` and return `true`; otherwise return `false` without touching
anything. -/
def DataBase.edit (s : Store) (table : String) (key : DBPath)
    (predicate : Option JSON → DBPath → Option JSON) (force : Bool) (emit : Bool) :
    Except DBError (Bool × Store × List Ev) :=
  match checkTable s table with
  | Except.error e => Except.error e
  | Except.ok _ =>
    if hasPath (dataOf s table) key || force then
      match DataBase.set s table key
          (predicate (jsCoalesce (rawGet (dataOf s table) key) none) key) emit with
      | Except.error e => Except.error e
      | Except.ok (_, s1, tr) => Except.ok (true, s1, tr)
    else Except.ok (false, s, [])

/-- The method `timeout(value, time, id, table)`: stores the entry
`{expires: now + time, value, time, id}` at key `id` through
`set(..., emit=false)`, emits `createTimeout(entry)`, and returns the entry.
No timer is scheduled here. -/
def DataBase.timeout (s : Store) (now : Int) (value : JSON) (time : Int) (id : String)
    (table : String) : Except DBError (JSON × Store × List Ev) :=
  match checkTable s table with
  | Except.error e => Except.error e
  | Except.ok _ =>
    let entry : JSON := JSON.obj
      [("expires", JSON.num (now + time)), ("value", value),
       ("time", JSON.num time), ("id", JSON.str id)]
    match DataBase.set s table [Seg.key id] (some entry) false with
    | Except.error e => Except.error e
    | Except.ok (_, s1, tr) =>
      Except.ok (entry, s1, tr ++ [⟨Eff.createTimeout entry, s1.datas⟩])

/-- The method `expire(tid, table)`: emits `expires` carrying
`this.datas[table][tid]` (possibly `undefined`), then delegates to
`delete`. -/
def DataBase.expire (s : Store) (tid : String) (table : String) :
    Except DBError (Store × List Ev) :=
  match checkTable s table with
  | Except.error e => Except.error e
  | Except.ok _ =>
    let payload := rawGet (dataOf s table) [Seg.key tid]
    let preEvent : Ev := ⟨Eff.expires payload, s.datas⟩
    match DataBase.delete s table [Seg.key tid] with
    | Except.error e => Except.error e
    | Except.ok (_, s1, tr) => Except.ok (s1, preEvent :: tr)

/-- Node `path.join` at the model boundary. -/
def joinPath (a b : String) : String := a ++ "/" ++ b

/-- One iteration of the table-loading loop of `init()`: record the table's
backing path in `mods` and load its document (the parsed file when present;
a missing file is first written as an empty object and then treated as that
content). -/
def loadStep (mdir : String) (disk : String → Option JSON)
    (acc : Snap × List (String × String)) (t : TableDesc) :
    Snap × List (String × String) :=
  let p := joinPath mdir t.mod
  (setField acc.1 t.name ((disk p).getD (JSON.obj [])), setField acc.2 t.name p)

/-- The table-loading loop of `init()`. -/
def loadTables (o : DBOptions) (disk : String → Option JSON) :
    Snap × List (String × String) :=
  o.tables.foldl (loadStep o.mod disk) ([], [])

/-- Numeric `expires` field of a stored timeout entry, when it has one. -/
def expiresOf : JSON → Option Int
  | JSON.obj fs =>
    match lookupField fs "expires" with
    | some (JSON.num n) => some n
    | _ => none
  | _ => none

/-- The overdue test `Date.now() >= entry.expires` (false when the field is
missing or non-numeric, like a JavaScript comparison against
`undefined`). -/
def overdueB (now : Int) (e : JSON) : Bool :=
  match expiresOf e with
  | some x => decide (now ≥ x)
  | none => false

/-- One iteration of the overdue-timeout scan in `init()` for key `id` of
the timeouts table: when `Date.now() >= expires`, call `expire(id)`
synchronously; otherwise register the one-shot `setTimeout`.  An entry
without a numeric `expires` fails the comparison and gets a timer whose
`NaN` delay JavaScript clamps to zero, modelled as firing at `now`.  An
absent entry (unreachable for parsed documents, whose keys are unique) is
skipped. -/
def scanStep (tt : String) (now : Int) (acc : Store × List Ev) (id : String) :
    Store × List Ev :=
  match rawGet (dataOf acc.1 tt) [Seg.key id] with
  | none => acc
  | some e =>
    match expiresOf e with
    | some x =>
      if now ≥ x then
        match DataBase.expire acc.1 id tt with
        | Except.error _ => acc
        | Except.ok (s1, tr) => (s1, acc.2 ++ tr)
      else ({ acc.1 with timers := acc.1.timers ++ [(x, id)] }, acc.2)
    | none => ({ acc.1 with timers := acc.1.timers ++ [(now, id)] }, acc.2)

/-- Keys iterated by `for (const TimeuotId in Timeouts)`: the own enumerable
keys of the parsed timeouts document (other shapes contribute none). -/
def forInKeys : JSON → List String
  | JSON.obj fs => fs.map Prod.fst
  | _ => []

/-- The method `init()`: merge the defaults with the stored options, load
every configured table, mark the store ready and emit `ready`, then scan the
timeouts table, expiring every overdue entry synchronously in iteration
order and scheduling one-shot timers for the rest.  `disk` maps a backing
path to its parsed content. -/
def DataBase.init (opts : DBOptions) (disk : String → Option JSON) (now : Int) :
    Store × List Ev :=
  let o := initMergeOptions opts
  let loaded := loadTables o disk
  let s0 : Store :=
    { options := o, datas := loaded.1, mods := loaded.2, timers := [], ready := true }
  let ttKeys := forInKeys ((lookupField s0.datas o.timeoutsTable).getD (JSON.obj []))
  ttKeys.foldl (scanStep o.timeoutsTable now) (s0, [⟨Eff.ready, s0.datas⟩])

/-- Whether an effect is the `ready` event. -/
def Eff.isReady : Eff → Bool
  | Eff.ready => true
  | _ => false

/-- Whether an effect is an `expires` event. -/
def Eff.isExpires : Eff → Bool
  | Eff.expires _ => true
  | _ => false

/-- The ordering property the specification asserts for `init()`: from the
`ready` event onward no `expires` event occurs, i.e. every overdue
expiration fires strictly before `ready`. -/
def expiresAllBeforeReady (l : List Eff) : Bool :=
  (l.dropWhile (fun e => !e.isReady)).all (fun e => !e.isExpires)

theorem joinPath_ne_empty (a b : String) : joinPath a b ≠ "" := by
  intro h
  have hlen := congrArg String.length h
  have hs : String.length "/" = 1 := rfl
  have h1 : (joinPath a b).length = a.length + 1 + b.length := by
    simp [joinPath, String.length_append, hs]
  rw [h1] at hlen
  have h2 : String.length "" = 0 := rfl
  rw [h2] at hlen
  omega

theorem lookupField_eq_some_mem {α : Type} (fs : List (String × α)) (k : String) (v : α)
    (h : lookupField fs k = some v) : k ∈ fs.map Prod.fst := by
  induction fs with
  | nil => simp [lookupField] at h
  | cons q rest ih =>
    obtain ⟨k2, w⟩ := q
    by_cases hk : k2 = k
    · subst hk
      simp
    · simp only [lookupField, if_neg hk] at h
      simp [ih h]

theorem loadFold_invariant (mdir : String) (disk : String → Option JSON)
    (ts : List TableDesc) :
    ∀ (acc : Snap × List (String × String)),
      (∀ n, (lookupField acc.1 n).isSome →
        ∃ q, lookupField acc.2 n = some q ∧ q ≠ "") →
      ∀ n, (lookupField (ts.foldl (loadStep mdir disk) acc).1 n).isSome →
        ∃ q, lookupField (ts.foldl (loadStep mdir disk) acc).2 n = some q ∧ q ≠ "" := by
  induction ts with
  | nil => intro acc h n; exact h n
  | cons t rest ih =>
    intro acc h n
    rw [List.foldl_cons]
    apply ih
    intro m hm
    by_cases hcase : t.name = m
    · subst hcase
      refine ⟨joinPath mdir t.mod, ?_, joinPath_ne_empty mdir t.mod⟩
      simp [loadStep, lookupField_setField_self]
    · simp only [loadStep, lookupField_setField_ne _ _ _ _ hcase] at hm
      simp only [loadStep, lookupField_setField_ne _ _ _ _ hcase]
      exact h m hm

/-- Tables never configured are not loaded: the scan over a missing timeouts
table iterates nothing. -/
theorem loadFold_lookup_none (mdir : String) (disk : String → Option JSON)
    (ts : List TableDesc) :
    ∀ (acc : Snap × List (String × String)) (n : String),
      n ∉ ts.map TableDesc.name → lookupField acc.1 n = none →
      lookupField (ts.foldl (loadStep mdir disk) acc).1 n = none := by
  induction ts with
  | nil => intro acc n _ h; exact h
  | cons t rest ih =>
    intro acc n hmem hacc
    rw [List.foldl_cons]
    have hne : t.name ≠ n := by
      intro hc
      exact hmem (by simp [hc])
    have hrest : n ∉ rest.map TableDesc.name := by
      intro hc
      exact hmem (by simp [hc])
    apply ih _ n hrest
    simpa [loadStep, lookupField_setField_ne _ _ _ _ hne] using hacc

/-- Trace contributed by the overdue scan over one document: an
`expires`/`delete` pair (plus a triggered save when autosave is on) for each
overdue entry, in iteration order. -/
def scanTraceFor (tt : String) (autoSaveFlag : Bool) (now : Int)
    (fs : List (String × JSON)) : List Eff :=
  (fs.filter (fun q => overdueB now q.2)).flatMap (fun q =>
    Eff.expires (some q.2) :: Eff.delete [Seg.key q.1] tt ::
      (if autoSaveFlag then [Eff.save tt] else []))

/-- Effect trace of the overdue-timeout scan: scanning the keys of a loaded
timeouts document `fs` (whose bindings are still intact in the live document
`gs`) appends exactly one `expires` event, one `delete` event and, with
autosave on, one `save` per overdue entry, in the document's iteration
order, each `expires` payload being the entry as loaded. -/
theorem scanFold_eff (tt : String) (now : Int) (p : String)
    (fs : List (String × JSON)) :
    ∀ (gs : List (String × JSON)) (s : Store) (tr : List Ev),
      s.ready = true →
      lookupField s.mods tt = some p → p ≠ "" →
      lookupField s.datas tt = some (JSON.obj gs) →
      (∀ k e, lookupField fs k = some e → lookupField gs k = some e) →
      (fs.map Prod.fst).Nodup →
      ((fs.map Prod.fst).foldl (scanStep tt now) (s, tr)).2.map Ev.eff =
        tr.map Ev.eff ++ scanTraceFor tt s.options.autoSave now fs := by
  induction fs with
  | nil =>
    intro gs s tr _ _ _ _ _ _
    simp [scanTraceFor]
  | cons q rest ih =>
    obtain ⟨k1, e1⟩ := q
    intro gs s tr hr hm hp hd hsub hnd
    have hg1 : lookupField gs k1 = some e1 := hsub k1 e1 (by simp [lookupField])
    have hdataOf : dataOf s tt = JSON.obj gs := by simp [dataOf, hd]
    have hraw : rawGet (dataOf s tt) [Seg.key k1] = some e1 := by
      rw [hdataOf]; simp [rawGet, hg1]
    have hct : checkTable s tt = Except.ok () := by
      simp [checkTable, checkReady, hr, hm, hp]
    have hk1notin : k1 ∉ rest.map Prod.fst := by
      rw [List.map_cons, List.nodup_cons] at hnd
      exact hnd.1
    have hnd1 : (rest.map Prod.fst).Nodup := by
      rw [List.map_cons, List.nodup_cons] at hnd
      exact hnd.2
    have hsubrest : ∀ k e, lookupField rest k = some e → lookupField gs k = some e ∧ k1 ≠ k := by
      intro k e hk
      have hkmem : k ∈ rest.map Prod.fst := lookupField_eq_some_mem rest k e hk
      have hne : k1 ≠ k := fun hc => hk1notin (hc ▸ hkmem)
      refine ⟨hsub k e ?_, hne⟩
      simp [lookupField, if_neg hne, hk]
    rw [List.map_cons, List.foldl_cons]
    cases hx : expiresOf e1 with
    | some x =>
      by_cases hge : now ≥ x
      · -- overdue: expire fires synchronously
        have hod : overdueB now e1 = true := by simp [overdueB, hx, hge]
        have hdel : DataBase.delete s tt [Seg.key k1] =
            Except.ok (true,
              { s with datas := setField s.datas tt (JSON.obj (removeField gs k1)) },
              ⟨Eff.delete [Seg.key k1] tt, s.datas⟩ ::
                saveEffs { s with datas := setField s.datas tt (JSON.obj (removeField gs k1)) } tt) := by
          simp [DataBase.delete, hct, hdataOf, unsetPath]
        have hexp : DataBase.expire s k1 tt =
            Except.ok ({ s with datas := setField s.datas tt (JSON.obj (removeField gs k1)) },
              ⟨Eff.expires (some e1), s.datas⟩ ::
                ⟨Eff.delete [Seg.key k1] tt, s.datas⟩ ::
                saveEffs { s with datas := setField s.datas tt (JSON.obj (removeField gs k1)) } tt) := by
          simp [DataBase.expire, hct, hraw, hdel]
        have hstep : scanStep tt now (s, tr) k1 =
            ({ s with datas := setField s.datas tt (JSON.obj (removeField gs k1)) },
              tr ++ (⟨Eff.expires (some e1), s.datas⟩ ::
                ⟨Eff.delete [Seg.key k1] tt, s.datas⟩ ::
                saveEffs { s with datas := setField s.datas tt (JSON.obj (removeField gs k1)) } tt)) := by
          simp [scanStep, hraw, hx, hge, hexp]
        rw [hstep]
        rw [ih (removeField gs k1)
          { s with datas := setField s.datas tt (JSON.obj (removeField gs k1)) }
          (tr ++ (⟨Eff.expires (some e1), s.datas⟩ ::
            ⟨Eff.delete [Seg.key k1] tt, s.datas⟩ ::
            saveEffs { s with datas := setField s.datas tt (JSON.obj (removeField gs k1)) } tt))
          hr hm hp
          (by simp [lookupField_setField_self])
          (by
            intro k e hk
            obtain ⟨hgk, hne⟩ := hsubrest k e hk
            rw [lookupField_removeField_ne gs k1 k hne]
            exact hgk)
          hnd1]
        by_cases hAS : s.options.autoSave = true <;>
          simp [scanTraceFor, saveEffs, List.filter_cons, hod, hAS]
      · -- not overdue: a one-shot timer is registered, no trace
        have hod : overdueB now e1 = false := by simp [overdueB, hx, hge]
        have hstep : scanStep tt now (s, tr) k1 =
            ({ s with timers := s.timers ++ [(x, k1)] }, tr) := by
          simp [scanStep, hraw, hx, hge]
        rw [hstep]
        rw [ih gs { s with timers := s.timers ++ [(x, k1)] } tr
          hr hm hp hd (fun k e hk => (hsubrest k e hk).1) hnd1]
        simp [scanTraceFor, List.filter_cons, hod]
    | none =>
      -- no numeric expires: the comparison is false and the NaN-delay timer
      -- fires at once; no trace entry either way
      have hod : overdueB now e1 = false := by simp [overdueB, hx]
      have hstep : scanStep tt now (s, tr) k1 =
          ({ s with timers := s.timers ++ [(now, k1)] }, tr) := by
        simp [scanStep, hraw, hx]
      rw [hstep]
      rw [ih gs { s with timers := s.timers ++ [(now, k1)] } tr
        hr hm hp hd (fun k e hk => (hsubrest k e hk).1) hnd1]
      simp [scanTraceFor, List.filter_cons, hod]

theorem loadTables_mods_of_datas (o : DBOptions) (disk : String → Option JSON)
    (n : String) (d : JSON)
    (h : lookupField (loadTables o disk).1 n = some d) :
    ∃ q, lookupField (loadTables o disk).2 n = some q ∧ q ≠ "" := by
  unfold loadTables at h ⊢
  exact loadFold_invariant o.mod disk o.tables ([], [])
    (by intro m hm; simp [lookupField] at hm) n (by rw [h]; rfl)

theorem scanTraceFor_no_ready (tt : String) (asv : Bool) (now : Int)
    (fs : List (String × JSON)) :
    ∀ a ∈ scanTraceFor tt asv now fs, a.isReady = false := by
  intro a ha
  simp only [scanTraceFor] at ha
  rcases List.mem_flatMap.mp ha with ⟨q, _, hmem⟩
  simp only [List.mem_cons] at hmem
  rcases hmem with h1 | h1 | h1
  · rw [h1]; rfl
  · rw [h1]; rfl
  · cases asv with
    | true =>
      simp at h1
      rw [h1]; rfl
    | false => simp at h1

/-- A ready store with one registered table holding an empty document. -/
def sampleStore : Store :=
  { options := DefaultDataBaseOptions
    datas := [("main", JSON.obj [])]
    mods := [("main", "database/main.json")]
    timers := []
    ready := true }

/-- The same store before initialization has completed. -/
def sampleStoreNotReady : Store := { sampleStore with ready := false }

/-- A ready store whose document holds an explicit null at key `p`. -/
def sampleStoreNull : Store :=
  { sampleStore with datas := [("main", JSON.obj [("p", JSON.null)])] }

/-- A stored timeout entry that is overdue at time 10. -/
def entryA : JSON := JSON.obj
  [("expires", JSON.num 5), ("value", JSON.str "v"),
   ("time", JSON.num 5), ("id", JSON.str "a")]

/-- Options that also register the timeouts table (reachable by passing a
second table descriptor to the constructor, which the merge keeps). -/
def optsTwoTables : DBOptions :=
  { timeoutsTable := "timeouts"
    autoSave := true
    tables := [⟨"main", "main.json"⟩, ⟨"timeouts", "timeouts.json"⟩]
    mod := "./database/" }

/-- Disk contents with one overdue entry in the timeouts table. -/
def diskOverdue : String → Option JSON := fun p =>
  if p = "./database//timeouts.json" then some (JSON.obj [("a", entryA)]) else none

/-- Store produced by `init()` on an empty disk with the timeouts table
registered. -/
def storeAfterInit : Store := (DataBase.init optsTwoTables (fun _ => none) 0).1

/-- C1 counterexample: with an overdue entry on disk, `init()` emits `ready`
first and only then the entry's `expires` and `delete` events, so the
claimed ordering (every overdue expiration strictly before `ready`) is false
at this input even though an overdue entry was expired during `init()`. -/
theorem C1_counterexample :
    expiresAllBeforeReady ((DataBase.init optsTwoTables diskOverdue 10).2.map Ev.eff)
      = false ∧
    ((DataBase.init optsTwoTables diskOverdue 10).2.map Ev.eff).any Eff.isExpires
      = true ∧
    ((DataBase.init optsTwoTables diskOverdue 10).2.map Ev.eff) =
      [Eff.ready, Eff.expires (some entryA), Eff.delete [Seg.key "a"] "timeouts",
       Eff.save "timeouts"] :=
  ⟨rfl, rfl, rfl⟩

/-- C1 (amended): during `init()` the `ready` event is emitted exactly once,
after all tables load but before the overdue scan; every entry of the
timeouts table whose `expires <= now` is then expired synchronously, in the
table's iteration order, its `expires` event (carrying the loaded entry)
followed by its `delete` event (and a save when autosave is on), all after
`ready`. -/
theorem C1_amended (opts : DBOptions) (disk : String → Option JSON) (now : Int)
    (fs : List (String × JSON))
    (hdoc : lookupField (loadTables (initMergeOptions opts) disk).1
        (initMergeOptions opts).timeoutsTable = some (JSON.obj fs))
    (hnd : (fs.map Prod.fst).Nodup) :
    ((DataBase.init opts disk now).2.map Ev.eff) =
      Eff.ready :: scanTraceFor (initMergeOptions opts).timeoutsTable
        (initMergeOptions opts).autoSave now fs ∧
    ((DataBase.init opts disk now).2.map Ev.eff).countP Eff.isReady = 1 := by
  obtain ⟨p, hm, hp⟩ := loadTables_mods_of_datas (initMergeOptions opts) disk
    (initMergeOptions opts).timeoutsTable (JSON.obj fs) hdoc
  have htr : ((DataBase.init opts disk now).2.map Ev.eff) =
      Eff.ready :: scanTraceFor (initMergeOptions opts).timeoutsTable
        (initMergeOptions opts).autoSave now fs := by
    simp only [DataBase.init]
    rw [hdoc]
    simp only [Option.getD_some, forInKeys]
    rw [scanFold_eff (initMergeOptions opts).timeoutsTable now p fs fs
      { options := initMergeOptions opts
        datas := (loadTables (initMergeOptions opts) disk).1
        mods := (loadTables (initMergeOptions opts) disk).2
        timers := []
        ready := true }
      [⟨Eff.ready, (loadTables (initMergeOptions opts) disk).1⟩]
      rfl hm hp hdoc (fun _ _ hk => hk) hnd]
    simp
  refine ⟨htr, ?_⟩
  rw [htr]
  have h0 : (scanTraceFor (initMergeOptions opts).timeoutsTable
      (initMergeOptions opts).autoSave now fs).countP Eff.isReady = 0 :=
    List.countP_eq_zero.mpr (by
      intro a ha
      simp [scanTraceFor_no_ready _ _ _ _ a ha])
  rw [List.countP_cons_of_pos Eff.isReady _ (by rfl), h0]

/-- C2: `timeout("bye", 0, "t1")` called after `init()` completes stores the
entry and emits `createTimeout` (plus the autosave), but schedules no timer
and emits no `expires` event, and the entry is still present afterwards —
nothing will ever fire it within the process. -/
theorem C2_code_bug :
    (DataBase.timeout storeAfterInit 0 (JSON.str "bye") 0 "t1" "timeouts").map
      (fun r => (r.2.1.timers, (r.2.2.map Ev.eff).any Eff.isExpires,
                 hasPath (dataOf r.2.1 "timeouts") [Seg.key "t1"])) =
    Except.ok ([], false, true) := rfl

/-- Support for C2: a successful `timeout` call never changes the pending
timers and never emits an `expires` event; only `init()` schedules
expirations. -/
theorem timeout_keeps_timers (s : Store) (now : Int) (v : JSON) (time : Int)
    (id table : String) (e : JSON) (s1 : Store) (tr : List Ev)
    (h : DataBase.timeout s now v time id table = Except.ok (e, s1, tr)) :
    s1.timers = s.timers ∧ (tr.map Ev.eff).any Eff.isExpires = false := by
  revert h
  unfold DataBase.timeout DataBase.set
  cases hc : checkTable s table with
  | error er => intro h; cases h
  | ok u =>
    intro h
    simp only [Except.ok.injEq, Prod.mk.injEq] at h
    obtain ⟨-, hs, htr⟩ := h
    rw [← hs, ← htr]
    refine ⟨rfl, ?_⟩
    by_cases hAS : s.options.autoSave = true <;>
      simp [saveEffs, hAS, Eff.isExpires]

/-- C10: when the configured timeouts table name is not among the registered
tables, `init()` still completes, emits `ready` (and nothing else), and the
overdue scan iterates zero entries — no failure and no auto-created
table. -/
theorem C10_theorem (opts : DBOptions) (disk : String → Option JSON) (now : Int)
    (h : (initMergeOptions opts).timeoutsTable ∉
      ((initMergeOptions opts).tables.map TableDesc.name)) :
    ((DataBase.init opts disk now).2.map Ev.eff) = [Eff.ready] ∧
    (DataBase.init opts disk now).1.ready = true ∧
    (DataBase.init opts disk now).1.timers = [] := by
  have hnone : lookupField (loadTables (initMergeOptions opts) disk).1
      (initMergeOptions opts).timeoutsTable = none := by
    unfold loadTables
    exact loadFold_lookup_none (initMergeOptions opts).mod disk
      (initMergeOptions opts).tables ([], []) (initMergeOptions opts).timeoutsTable h rfl
  refine ⟨?_, ?_, ?_⟩ <;>
    · simp only [DataBase.init]
      rw [hnone]
      simp [forInKeys]

/-- Witness for C1 (amended) at the concrete overdue-restart scenario. -/
theorem C1_amended_witness :
    ((DataBase.init optsTwoTables diskOverdue 10).2.map Ev.eff) =
      Eff.ready :: scanTraceFor "timeouts" true 10 [("a", entryA)] ∧
    ((DataBase.init optsTwoTables diskOverdue 10).2.map Ev.eff).countP Eff.isReady = 1 :=
  C1_amended optsTwoTables diskOverdue 10 [("a", entryA)] rfl (by simp)

/-- Witness for C10 at the default configuration, whose timeouts table
"timeouts" is not registered. -/
theorem C10_theorem_witness :
    ((DataBase.init DefaultDataBaseOptions (fun _ => none) 0).2.map Ev.eff) = [Eff.ready] ∧
    (DataBase.init DefaultDataBaseOptions (fun _ => none) 0).1.ready = true ∧
    (DataBase.init DefaultDataBaseOptions (fun _ => none) 0).1.timers = [] :=
  C10_theorem DefaultDataBaseOptions (fun _ => none) 0 (by decide)

/-- C3 counterexample: after `set(t, p, null)`, `has(t, p)` is true but
`get(t, p)` yields `undefined` (the `?? dvalue` collapses the stored null),
so `has` is not equivalent to `get` yielding a defined value and `get` does
not deliver the stored null. -/
theorem C3_counterexample :
    (DataBase.set sampleStore "main" [Seg.key "p"] (some JSON.null) true).map
      (fun r => (DataBase.has r.2.1 "main" [Seg.key "p"],
                 DataBase.get r.2.1 "main" [Seg.key "p"] none)) =
    Except.ok (Except.ok true, Except.ok none) := rfl

/-- C3 (amended): `has(t, p)` is true iff `get(t, p)` (no default) yields a
defined value or the value stored at the path is an explicit null, which
`get` collapses to `undefined`; in particular after `set(t, p, null)`, `has`
is true while `get` returns `undefined`. -/
theorem C3_amended (s : Store) (t : String) (pth : DBPath) (d : JSON) (p : String)
    (hr : s.ready = true) (hm : lookupField s.mods t = some p) (hp : p ≠ "")
    (hd : lookupField s.datas t = some d) :
    DataBase.has s t pth = Except.ok true ↔
      ((∃ v, DataBase.get s t pth none = Except.ok (some v)) ∨
        rawGet d pth = some JSON.null) := by
  have hct : checkTable s t = Except.ok () := by
    simp [checkTable, checkReady, hr, hm, hp]
  have hdata : dataOf s t = d := by simp [dataOf, hd]
  simp only [DataBase.has, DataBase.get, hct, hdata]
  rw [hasPath_eq_isSome_rawGet]
  cases hraw : rawGet d pth with
  | none => simp [jsCoalesce]
  | some v =>
    cases v with
    | null => simp [jsCoalesce]
    | bool b => simp [jsCoalesce]
    | num n => simp [jsCoalesce]
    | str st => simp [jsCoalesce]
    | arr xs => simp [jsCoalesce]
    | obj fs => simp [jsCoalesce]

/-- Witness for C3 (amended) at a store with an explicit null entry. -/
theorem C3_amended_witness :
    DataBase.has sampleStoreNull "main" [Seg.key "p"] = Except.ok true ↔
      ((∃ v, DataBase.get sampleStoreNull "main" [Seg.key "p"] none = Except.ok (some v)) ∨
        rawGet (JSON.obj [("p", JSON.null)]) [Seg.key "p"] = some JSON.null) :=
  C3_amended sampleStoreNull "main" [Seg.key "p"] (JSON.obj [("p", JSON.null)])
    "database/main.json" rfl rfl (by decide) rfl

/-- C4 counterexample: storing `null` then reading it back yields
`undefined`, not a value deep-equal to the stored `null`. -/
theorem C4_counterexample :
    (DataBase.set sampleStore "main" [Seg.key "a", Seg.key "b"] (some JSON.null) true).map
      (fun r => DataBase.get r.2.1 "main" [Seg.key "a", Seg.key "b"] none) =
    Except.ok (Except.ok none) ∧ (none : Option JSON) ≠ some JSON.null :=
  ⟨rfl, by intro h; cases h⟩

/-- C4 (amended): for every defined JSON value other than null, `set`
followed by `get` on the same path returns exactly the stored value; the
round trip fails only for null, which `get`'s `??` collapses to the
default. -/
theorem C4_amended (s : Store) (t : String) (pth : DBPath) (v : JSON) (em : Bool)
    (p : String) (d : JSON)
    (hr : s.ready = true) (hm : lookupField s.mods t = some p) (hp : p ≠ "")
    (hd : lookupField s.datas t = some d) (hv : v ≠ JSON.null) :
    (DataBase.set s t pth (some v) em).map (fun r => DataBase.get r.2.1 t pth none) =
      Except.ok (Except.ok (some v)) := by
  have hct : checkTable s t = Except.ok () := by
    simp [checkTable, checkReady, hr, hm, hp]
  have hdata : dataOf s t = d := by simp [dataOf, hd]
  have hjs : jsStore (some v) = v := by
    cases v with
    | null => exact absurd rfl hv
    | bool b => rfl
    | num n => rfl
    | str st => rfl
    | arr xs => rfl
    | obj fs => rfl
  have hcoal : jsCoalesce (some v) none = some v := by
    cases v with
    | null => exact absurd rfl hv
    | bool b => rfl
    | num n => rfl
    | str st => rfl
    | arr xs => rfl
    | obj fs => rfl
  have hct1 : checkTable
      { s with datas := setField s.datas t (setPath d pth (jsStore (some v))) } t =
      Except.ok () := by
    simp [checkTable, checkReady, hr, hm, hp]
  have hd1 : dataOf
      { s with datas := setField s.datas t (setPath d pth (jsStore (some v))) } t =
      setPath d pth (jsStore (some v)) := by
    simp [dataOf, lookupField_setField_self]
  rw [hjs] at hct1 hd1
  simp only [DataBase.set, hct, hdata, Except.map, DataBase.get, hct1, hd1, hjs,
    rawGet_setPath_self, hcoal]

/-- Witness for C4 (amended) with a number at a nested path. -/
theorem C4_amended_witness :
    (DataBase.set sampleStore "main" [Seg.key "a", Seg.key "b"] (some (JSON.num 7)) true).map
      (fun r => DataBase.get r.2.1 "main" [Seg.key "a", Seg.key "b"] none) =
      Except.ok (Except.ok (some (JSON.num 7))) :=
  C4_amended sampleStore "main" [Seg.key "a", Seg.key "b"] (JSON.num 7) true
    "database/main.json" (JSON.obj []) rfl rfl (by decide) rfl (by intro h; cases h)

/-- User options exercising every configurable key for C5. -/
def userOpts : PartialOptions :=
  { timeoutsTable := some "colTT"
    autoSave := some false
    tables := some [⟨"users", "users.json"⟩]
    mod := some "./custom/" }

/-- C5: the double merge gives the defaults precedence, not the caller: with
every key supplied by the caller, the effective options after construction,
and again after the merge at the top of `init()`, are exactly the default
options — the caller's table list, autosave flag, directory and
timeouts-table name are all overwritten. -/
theorem C5_code_bug :
    constructorMerge userOpts = DefaultDataBaseOptions ∧
    initMergeOptions (constructorMerge userOpts) = DefaultDataBaseOptions ∧
    userOpts.autoSave = some false ∧
    userOpts.tables = some [⟨"users", "users.json"⟩] ∧
    userOpts.timeoutsTable = some "colTT" ∧
    userOpts.mod = some "./custom/" :=
  ⟨rfl, rfl, rfl, rfl, rfl, rfl⟩

/-- C6: `edit` writes `predicate(get(table, key), key)` through `set` and
returns `true` whenever the path is present or `force` is set (the current
value being `undefined` on a forced absent path), and otherwise returns
`false` leaving the store unchanged, with no event and no persistence. -/
theorem C6_theorem (s : Store) (t : String) (pth : DBPath)
    (f : Option JSON → DBPath → Option JSON) (force em : Bool) (p : String) (d : JSON)
    (hr : s.ready = true) (hm : lookupField s.mods t = some p) (hp : p ≠ "")
    (hd : lookupField s.datas t = some d) :
    ((hasPath d pth || force) = true →
      ∃ s1 tr, DataBase.edit s t pth f force em = Except.ok (true, s1, tr) ∧
        dataOf s1 t = setPath d pth (jsStore (f (jsCoalesce (rawGet d pth) none) pth)) ∧
        tr = (if em then
            [⟨Eff.update pth (f (jsCoalesce (rawGet d pth) none) pth) t, s1.datas⟩]
          else []) ++
          (if s.options.autoSave then [⟨Eff.save t, s1.datas⟩] else [])) ∧
    ((hasPath d pth || force) = false →
      DataBase.edit s t pth f force em = Except.ok (false, s, [])) := by
  have hct : checkTable s t = Except.ok () := by
    simp [checkTable, checkReady, hr, hm, hp]
  have hdata : dataOf s t = d := by simp [dataOf, hd]
  constructor
  · intro hcond
    refine ⟨{ s with datas := setField s.datas t (setPath d pth (jsStore (f (jsCoalesce (rawGet d pth) none) pth))) },
      (if em then
        [⟨Eff.update pth (f (jsCoalesce (rawGet d pth) none) pth) t,
          setField s.datas t (setPath d pth (jsStore (f (jsCoalesce (rawGet d pth) none) pth)))⟩]
       else []) ++
        (if s.options.autoSave then
          [⟨Eff.save t,
            setField s.datas t (setPath d pth (jsStore (f (jsCoalesce (rawGet d pth) none) pth)))⟩]
         else []), ?_, ?_, ?_⟩
    · simp only [DataBase.edit, hct, hdata, hcond, if_true, DataBase.set, saveEffs]
    · simp [dataOf, lookupField_setField_self]
    · rfl
  · intro hcond
    simp only [DataBase.edit, hct, hdata, hcond, Bool.false_eq_true, if_false]

/-- Witness for C6: a forced edit of an absent path creates the entry from
`predicate(undefined, path)` and returns true, and an unforced edit of an
absent path returns false and changes nothing. -/
theorem C6_theorem_witness :
    ((hasPath (JSON.obj []) [Seg.key "missing-key"] || true) = true →
      ∃ s1 tr, DataBase.edit sampleStore "main" [Seg.key "missing-key"]
          (fun _ _ => some (JSON.num 1)) true true = Except.ok (true, s1, tr) ∧
        dataOf s1 "main" = setPath (JSON.obj []) [Seg.key "missing-key"]
          (jsStore ((fun _ _ => some (JSON.num 1))
            (jsCoalesce (rawGet (JSON.obj []) [Seg.key "missing-key"]) none)
            [Seg.key "missing-key"])) ∧
        tr = (if true then
            [⟨Eff.update [Seg.key "missing-key"]
              ((fun _ _ => some (JSON.num 1))
                (jsCoalesce (rawGet (JSON.obj []) [Seg.key "missing-key"]) none)
                [Seg.key "missing-key"]) "main", s1.datas⟩]
          else []) ++
          (if sampleStore.options.autoSave then [⟨Eff.save "main", s1.datas⟩] else [])) ∧
    ((hasPath (JSON.obj []) [Seg.key "missing-key"] || true) = false →
      DataBase.edit sampleStore "main" [Seg.key "missing-key"]
        (fun _ _ => some (JSON.num 1)) true true = Except.ok (false, sampleStore, [])) :=
  C6_theorem sampleStore "main" [Seg.key "missing-key"] (fun _ _ => some (JSON.num 1))
    true true "database/main.json" (JSON.obj []) rfl rfl (by decide) rfl

/-- C7: `delete` always returns `true`, emits the `delete(key, table)` event
whose snapshot is the pre-removal state (the event precedes the removal),
and on an absent key still succeeds, still emits, and leaves the documents
unchanged. -/
theorem C7_theorem (s : Store) (t : String) (k : DBPath) (p : String) (d : JSON)
    (hr : s.ready = true) (hm : lookupField s.mods t = some p) (hp : p ≠ "")
    (hd : lookupField s.datas t = some d) :
    ∃ s1, DataBase.delete s t k =
        Except.ok (true, s1,
          ⟨Eff.delete k t, s.datas⟩ ::
            (if s.options.autoSave then [⟨Eff.save t, s1.datas⟩] else [])) ∧
      dataOf s1 t = unsetPath d k ∧
      (hasPath d k = false → s1.datas = s.datas) := by
  have hct : checkTable s t = Except.ok () := by
    simp [checkTable, checkReady, hr, hm, hp]
  have hdata : dataOf s t = d := by simp [dataOf, hd]
  refine ⟨{ s with datas := setField s.datas t (unsetPath d k) }, ?_, ?_, ?_⟩
  · simp only [DataBase.delete, hct, hdata, saveEffs]
  · simp [dataOf, lookupField_setField_self]
  · intro habs
    have hun := unsetPath_of_not_hasPath k d habs
    show setField s.datas t (unsetPath d k) = s.datas
    rw [hun]
    exact setField_of_lookupField_eq s.datas t d hd

/-- Witness for C7: deleting a missing key from an empty document succeeds,
emits first, and leaves the store unchanged. -/
theorem C7_theorem_witness :
    ∃ s1, DataBase.delete sampleStore "main" [Seg.key "missing-key"] =
        Except.ok (true, s1,
          ⟨Eff.delete [Seg.key "missing-key"] "main", sampleStore.datas⟩ ::
            (if sampleStore.options.autoSave then [⟨Eff.save "main", s1.datas⟩] else [])) ∧
      dataOf s1 "main" = unsetPath (JSON.obj []) [Seg.key "missing-key"] ∧
      (hasPath (JSON.obj []) [Seg.key "missing-key"] = false → s1.datas = sampleStore.datas) :=
  C7_theorem sampleStore "main" [Seg.key "missing-key"] "database/main.json"
    (JSON.obj []) rfl rfl (by decide) rfl

/-- C8 counterexample: when the caller supplies `undefined`, the stored
value is `null` but `set` returns the caller's `undefined`, which is not the
value written. -/
theorem C8_counterexample :
    (DataBase.set sampleStore "main" [Seg.key "q"] none true).map
      (fun r => (r.1, rawGet (dataOf r.2.1 "main") [Seg.key "q"])) =
    Except.ok (none, some JSON.null) ∧ (none : Option JSON) ≠ some JSON.null :=
  ⟨rfl, by intro h; cases h⟩

/-- C8 (amended): `set` returns the caller-supplied value while the document
receives `value ?? null`; the two coincide exactly when the caller's value
is defined, and an undefined caller value stores `null` yet returns
`undefined`. -/
theorem C8_amended (s : Store) (t : String) (pth : DBPath) (v : Option JSON) (em : Bool)
    (p : String) (d : JSON)
    (hr : s.ready = true) (hm : lookupField s.mods t = some p) (hp : p ≠ "")
    (hd : lookupField s.datas t = some d) :
    ∃ s1 tr, DataBase.set s t pth v em = Except.ok (v, s1, tr) ∧
      rawGet (dataOf s1 t) pth = some (jsStore v) ∧
      (∀ w, v = some w → w = jsStore v) ∧
      (v = none → jsStore v = JSON.null) := by
  have hct : checkTable s t = Except.ok () := by
    simp [checkTable, checkReady, hr, hm, hp]
  have hdata : dataOf s t = d := by simp [dataOf, hd]
  refine ⟨{ s with datas := setField s.datas t (setPath d pth (jsStore v)) },
    (if em then [⟨Eff.update pth v t, setField s.datas t (setPath d pth (jsStore v))⟩]
     else []) ++
      saveEffs { s with datas := setField s.datas t (setPath d pth (jsStore v)) } t,
    ?_, ?_, ?_, ?_⟩
  · simp only [DataBase.set, hct, hdata]
  · simp [dataOf, lookupField_setField_self, rawGet_setPath_self]
  · intro w hw
    subst hw
    cases w with
    | null => rfl
    | bool b => rfl
    | num n => rfl
    | str st => rfl
    | arr xs => rfl
    | obj fs => rfl
  · intro hv
    subst hv
    rfl

/-- Witness for C8 (amended) at the undefined caller value. -/
theorem C8_amended_witness :
    ∃ s1 tr, DataBase.set sampleStore "main" [Seg.key "q"] none true =
        Except.ok (none, s1, tr) ∧
      rawGet (dataOf s1 "main") [Seg.key "q"] = some (jsStore none) ∧
      (∀ w, (none : Option JSON) = some w → w = jsStore none) ∧
      ((none : Option JSON) = none → jsStore none = JSON.null) :=
  C8_amended sampleStore "main" [Seg.key "q"] none true "database/main.json"
    (JSON.obj []) rfl rfl (by decide) rfl

/-- C9 counterexample: `save` is an `async` method, so calling it on a
not-ready store raises no synchronous error — the call itself returns
normally with a promise that rejects with the not-ready error. -/
theorem C9_counterexample :
    DataBase.saveInvoke sampleStoreNotReady "main" =
      Except.ok (Except.error DBError.notReady) := rfl

/-- C9 (amended): every public table operation runs the readiness and
registration checks first: before `init()` completes each raises the
not-ready error to its caller, and on a never-registered table name each
raises the unknown-table error, never auto-creating the table — except that
the async `save` delivers those same errors through its returned promise
rather than synchronously. -/
theorem C9_amended (s : Store) (t : String) (k : DBPath) (dv : Option JSON)
    (f : Option JSON → DBPath → Option JSON) (force em : Bool)
    (now time : Int) (v : JSON) (id : String) :
    (s.ready = false →
      DataBase.set s t k dv em = Except.error DBError.notReady ∧
      DataBase.get s t k dv = Except.error DBError.notReady ∧
      DataBase.has s t k = Except.error DBError.notReady ∧
      DataBase.keys s t = Except.error DBError.notReady ∧
      DataBase.data s t = Except.error DBError.notReady ∧
      DataBase.delete s t k = Except.error DBError.notReady ∧
      DataBase.edit s t k f force em = Except.error DBError.notReady ∧
      DataBase.timeout s now v time id t = Except.error DBError.notReady ∧
      DataBase.expire s id t = Except.error DBError.notReady ∧
      DataBase.saveInvoke s t = Except.ok (Except.error DBError.notReady)) ∧
    (s.ready = true → lookupField s.mods t = none →
      DataBase.set s t k dv em = Except.error (DBError.unknownTable t) ∧
      DataBase.get s t k dv = Except.error (DBError.unknownTable t) ∧
      DataBase.has s t k = Except.error (DBError.unknownTable t) ∧
      DataBase.keys s t = Except.error (DBError.unknownTable t) ∧
      DataBase.data s t = Except.error (DBError.unknownTable t) ∧
      DataBase.delete s t k = Except.error (DBError.unknownTable t) ∧
      DataBase.edit s t k f force em = Except.error (DBError.unknownTable t) ∧
      DataBase.timeout s now v time id t = Except.error (DBError.unknownTable t) ∧
      DataBase.expire s id t = Except.error (DBError.unknownTable t) ∧
      DataBase.saveInvoke s t = Except.ok (Except.error (DBError.unknownTable t))) := by
  constructor
  · intro hnr
    have hct : checkTable s t = Except.error DBError.notReady := by
      simp [checkTable, checkReady, hnr]
    refine ⟨?_, ?_, ?_, ?_, ?_, ?_, ?_, ?_, ?_, ?_⟩ <;>
      simp [DataBase.set, DataBase.get, DataBase.has, DataBase.keys, DataBase.data,
        DataBase.delete, DataBase.edit, DataBase.timeout, DataBase.expire,
        DataBase.saveInvoke, DataBase.save, hct]
  · intro hr hmn
    have hct : checkTable s t = Except.error (DBError.unknownTable t) := by
      simp [checkTable, checkReady, hr, hmn]
    refine ⟨?_, ?_, ?_, ?_, ?_, ?_, ?_, ?_, ?_, ?_⟩ <;>
      simp [DataBase.set, DataBase.get, DataBase.has, DataBase.keys, DataBase.data,
        DataBase.delete, DataBase.edit, DataBase.timeout, DataBase.expire,
        DataBase.saveInvoke, DataBase.save, hct]

/-- Witness for C9 (amended): a not-ready call and an unknown-table call
both fail fast at concrete inputs. -/
theorem C9_amended_witness :
    DataBase.set sampleStoreNotReady "main" [Seg.key "x"] none true =
      Except.error DBError.notReady ∧
    DataBase.timeout sampleStore 0 (JSON.str "x") 0 "i" "nope" =
      Except.error (DBError.unknownTable "nope") :=
  ⟨((C9_amended sampleStoreNotReady "main" [Seg.key "x"] none (fun a _ => a)
      false true 0 0 (JSON.str "x") "i").1 rfl).1,
   (((C9_amended sampleStore "nope" [Seg.key "x"] none (fun a _ => a)
      false true 0 0 (JSON.str "x") "i").2 rfl rfl).2.2.2.2.2.2.2.1)⟩
